import Mathlib

/-
Verification of the ICS timezone-proxy transform engine (server.ts).
The engine is embedded shallowly over `List Char`: every JavaScript string
operation used by the source (split, join, slice, startsWith, replace,
toUpperCase, the regular expressions of the classifier) is modelled by an
executable function on character lists, and the luxon date-time library is
modelled by an explicit parser, a proleptic-Gregorian epoch conversion and
an abstract zone environment mapping zone names to offset functions
(seconds east of UTC as a function of the instant).
-/

set_option maxHeartbeats 1000000
set_option maxRecDepth 8000

namespace IcsProxy

/-- Characters of a string literal, used to write `List Char` constants. -/
def chars (s : String) : List Char := s.data

/-- Lines and raw documents are character lists. -/
abbrev L := List Char

/-- Model of JavaScript `toUpperCase` on the ASCII text the feed contains. -/
def upper (l : L) : L := l.map Char.toUpper

/-- Split at every occurrence of a one-character separator, mirroring
JavaScript `String.prototype.split` (the empty string splits to one empty piece). -/
def splitOnChar (c : Char) : L → List L
  | [] => [[]]
  | x :: xs =>
    match splitOnChar c xs with
    | [] => [[x]]
    | y :: ys => if x = c then [] :: y :: ys else (x :: y) :: ys

/-- Interleave a separator between pieces (JavaScript `Array.prototype.join`). -/
def joinSep (sep : L) : List L → L
  | [] => []
  | [x] => x
  | x :: y :: ys => x ++ sep ++ joinSep sep (y :: ys)

/-- Global left-to-right replacement of the two-character sequence CR LF by LF,
mirroring `raw.replace(/\r\n/g, "\n")`. -/
def replaceCRLF : L → L
  | [] => []
  | [c] => [c]
  | c1 :: c2 :: t =>
    if c1 = '\r' ∧ c2 = '\n' then '\n' :: replaceCRLF t
    else c1 :: replaceCRLF (c2 :: t)

/-- Whitespace class of JavaScript `\s` restricted to the ASCII characters
that can occur here. -/
def isJsWS (c : Char) : Bool :=
  c = ' ' || c = '\t' || c = '\n' || c = '\r' || c = '\x0b' || c = '\x0c'

/-- A continuation line begins with one space or one tab. -/
def isContLine (l : L) : Bool :=
  match l with
  | c :: _ => c = ' ' || c = '\t'
  | [] => false

/-- Loop of `unfoldICSLines`: the accumulator holds the already unfolded lines
in reverse order, so popping the previous line is taking the head. -/
def unfoldAux : List L → List L → List L
  | racc, [] => racc.reverse
  | racc, l :: rest =>
    if isContLine l then
      match racc with
      | prev :: racc2 => unfoldAux ((prev ++ l.drop 1) :: racc2) rest
      | [] => unfoldAux [l.dropWhile isJsWS] rest
    else unfoldAux (l :: racc) rest

/-- `unfoldICSLines`: normalize CRLF to LF, split on LF, merge continuation lines. -/
def unfoldICSLines (raw : L) : List L :=
  unfoldAux [] (splitOnChar '\n' (replaceCRLF raw))

/-- Continuation chunks of a long line: 75-character slices each prefixed
with one space (fuel-driven; the fuel is the line length, which suffices). -/
def contChunks : Nat → L → List L
  | 0, l => [' ' :: l]
  | f + 1, l =>
    if l.length ≤ 75 then [' ' :: l]
    else (' ' :: l.take 75) :: contChunks f (l.drop 75)

/-- Fold one logical line at 75 characters as `foldICSLines` does. -/
def foldLine (l : L) : List L :=
  if l.length ≤ 75 then [l] else l.take 75 :: contChunks l.length (l.drop 75)

/-- `foldICSLines`: fold each logical line and join the pieces with CRLF. -/
def foldICSLines (lines : List L) : L :=
  joinSep (chars "\r\n") (lines.map foldLine).flatten

/-- Word character of the JavaScript regex class backslash-w. -/
def wordCh (c : Char) : Bool := c.isAlphanum || c = '_'

/-- Character class of the zone-identifier shape test after the slash. -/
def ianaTailCh (c : Char) : Bool := c.isAlphanum || c = '_' || c = '-' || c = '+'

/-- `isLikelyIana`: the unanchored test of a word character followed by a slash
followed by one identifier character, which is exactly when the source regex
matches somewhere in the string. -/
def isLikelyIana (l : L) : Bool :=
  l.tails.any fun t =>
    match t with
    | a :: b :: c :: _ => wordCh a && b = '/' && ianaTailCh c
    | _ => false

/-- `mapWindowsToIana`: the fixed Windows-to-IANA zone-name table. -/
def mapWindowsToIana (w : L) : L :=
  if w = chars "W. Europe Standard Time" then chars "Europe/Zurich"
  else if w = chars "Romance Standard Time" then chars "Europe/Zurich"
  else if w = chars "Central Europe Standard Time" then chars "Europe/Zurich"
  else if w = chars "Central European Standard Time" then chars "Europe/Zurich"
  else if w = chars "GMT Standard Time" then chars "Europe/London"
  else if w = chars "E. Europe Standard Time" then chars "Europe/Bucharest"
  else if w = chars "Russian Standard Time" then chars "Europe/Moscow"
  else if w = chars "Eastern Standard Time" then chars "America/New_York"
  else if w = chars "Central Standard Time" then chars "America/Chicago"
  else if w = chars "Mountain Standard Time" then chars "America/Denver"
  else if w = chars "Pacific Standard Time" then chars "America/Los_Angeles"
  else w

/-- Scan for the regex fragment matching non-colon characters followed by the
literal VALUE=DATE and a colon: succeed at the first position where the
literal (with its colon) starts, fail upon reaching a colon first. -/
def scanVD : L → Bool
  | [] => false
  | c :: cs =>
    if (chars "VALUE=DATE:").isPrefixOf (c :: cs) then true
    else if c = ':' then false
    else scanVD cs

/-- The four recognized date-time property names, uppercase. -/
def dtProps : List L :=
  [chars "DTSTART", chars "DTEND", chars "RECURRENCE-ID", chars "EXDATE"]

/-- `isAllDay`: the line matches property name, a semicolon, non-colon
characters, the literal VALUE=DATE and a colon, case-insensitively. -/
def isAllDay (line : L) : Bool :=
  let u := upper line
  dtProps.any fun P => (P ++ [';']).isPrefixOf u && scanVD (u.drop (P.length + 1))

/-- Characters allowed in the captured TZID parameter value: anything but a
semicolon or colon. -/
def tzidCapCh (c : Char) : Bool := c ≠ ';' && c ≠ ':'

/-- First case-insensitive occurrence of TZID= followed by at least one
admissible character; captures the maximal admissible run, in original case. -/
def extractTzid : L → Option L
  | [] => none
  | c :: cs =>
    if (chars "TZID=").isPrefixOf (upper (c :: cs)) then
      match (c :: cs).drop 5 with
      | d :: ds => if tzidCapCh d then some ((d :: ds).takeWhile tzidCapCh) else extractTzid cs
      | [] => extractTzid cs
    else extractTzid cs

/-- `extractExistingTzid` over the optional parameter segment. -/
def extractExistingTzid : Option L → Option L
  | none => none
  | some p => extractTzid p

/-- Digits of a decimal string read left to right. -/
def digitsToNat (l : L) : Nat := l.foldl (fun a c => a * 10 + (c.toNat - 48)) 0

/-- Gregorian leap year. -/
def isLeap (y : Nat) : Bool := (y % 4 = 0 && y % 100 ≠ 0) || y % 400 = 0

/-- Days in a month of the proleptic Gregorian calendar. -/
def daysInMonth (y mo : Nat) : Nat :=
  if mo = 2 then (if isLeap y then 29 else 28)
  else if mo = 4 ∨ mo = 6 ∨ mo = 9 ∨ mo = 11 then 30
  else 31

/-- A parsed calendar date-time (wall-clock fields). -/
structure DT where
  year : Int
  month : Nat
  day : Nat
  hour : Nat
  minute : Nat
  second : Nat
deriving DecidableEq, Repr

/-- Model of luxon fromFormat with format yyyyLLdd then literal T then HHmmss
or HHmm: an anchored fixed-width digit pattern followed by the range checks
luxon performs when assembling the date (month, day-in-month, hour, minute,
second). The literal separator is accepted in either case because luxon
compiles the parsing regex with the case-insensitive flag. Returns none
exactly when luxon returns an invalid DateTime. -/
def parseLen (hs : Bool) : Nat := if hs then 15 else 13

def luxonParse (hs : Bool) (s : L) : Option DT :=
  if s.length = parseLen hs ∧ (s.take 8).all Char.isDigit
      ∧ (s.get? 8 = some 'T' ∨ s.get? 8 = some 't')
      ∧ (s.drop 9).all Char.isDigit then
    let y := digitsToNat (s.take 4)
    let mo := digitsToNat ((s.drop 4).take 2)
    let d := digitsToNat ((s.drop 6).take 2)
    let hh := digitsToNat ((s.drop 9).take 2)
    let mi := digitsToNat ((s.drop 11).take 2)
    let ss := if hs then digitsToNat ((s.drop 13).take 2) else 0
    if 1 ≤ mo ∧ mo ≤ 12 ∧ 1 ≤ d ∧ d ≤ daysInMonth y mo ∧ hh ≤ 23 ∧ mi ≤ 59 ∧ ss ≤ 59 then
      some ⟨(y : Int), mo, d, hh, mi, ss⟩
    else none
  else none

/-- Days since 1970-01-01 of a proleptic Gregorian civil date
(Howard Hinnant's algorithm, floor division throughout). -/
def daysFromCivil (y : Int) (m d : Nat) : Int :=
  let yy := if m ≤ 2 then y - 1 else y
  let era := Int.fdiv yy 400
  let yoe := yy - era * 400
  let mp : Int := if 2 < m then (m : Int) - 3 else (m : Int) + 9
  let doy := Int.fdiv (153 * mp + 2) 5 + (d : Int) - 1
  let doe := yoe * 365 + Int.fdiv yoe 4 - Int.fdiv yoe 100 + doy
  era * 146097 + doe - 719468

/-- Civil date from days since 1970-01-01 (inverse of `daysFromCivil`). -/
def civilFromDays (z : Int) : Int × Nat × Nat :=
  let z2 := z + 719468
  let era := Int.fdiv z2 146097
  let doe := z2 - era * 146097
  let yoe := Int.fdiv (doe - Int.fdiv doe 1460 + Int.fdiv doe 36524 - Int.fdiv doe 146096) 365
  let y := yoe + era * 400
  let doy := doe - (365 * yoe + Int.fdiv yoe 4 - Int.fdiv yoe 100)
  let mp := Int.fdiv (5 * doy + 2) 153
  let d := doy - Int.fdiv (153 * mp + 2) 5 + 1
  let m := if mp < 10 then mp + 3 else mp - 9
  (if m ≤ 2 then y + 1 else y, m.toNat, d.toNat)

/-- Seconds since the epoch of a UTC wall-clock reading. -/
def epochOfDT (dt : DT) : Int :=
  daysFromCivil dt.year dt.month dt.day * 86400
    + (dt.hour : Int) * 3600 + (dt.minute : Int) * 60 + (dt.second : Int)

/-- UTC wall-clock reading of an epoch second. -/
def dtOfEpoch (e : Int) : DT :=
  let day := Int.fdiv e 86400
  let sod := (Int.emod e 86400).toNat
  let c := civilFromDays day
  ⟨c.1, c.2.1, c.2.2, sod / 3600, sod % 3600 / 60, sod % 60⟩

/-- Decimal digits of a natural number (fuel-driven so the kernel can reduce it). -/
def natDigitsAux : Nat → Nat → L → L
  | 0, _, acc => acc
  | f + 1, n, acc =>
    if n < 10 then Nat.digitChar n :: acc
    else natDigitsAux f (n / 10) (Nat.digitChar (n % 10) :: acc)

/-- Decimal rendering of a natural number. -/
def natDigits (n : Nat) : L := natDigitsAux (n + 1) n []

/-- Left zero-padding to a width, as JavaScript padStart (never truncates). -/
def padNum (w n : Nat) : L := List.replicate (w - (natDigits n).length) '0' ++ natDigits n

/-- Year rendering of toFormat yyyy; negative years (unreachable from the
feed but expressible in the model) render with a leading minus sign. -/
def intYear4 (y : Int) : L :=
  if y < 0 then '-' :: padNum 4 (-y).toNat else padNum 4 y.toNat

/-- Model of luxon toFormat with yyyyLLdd literal T HHmmss or HHmm. -/
def fmtDT (hs : Bool) (dt : DT) : L :=
  intYear4 dt.year ++ padNum 2 dt.month ++ padNum 2 dt.day
    ++ 'T' :: (padNum 2 dt.hour ++ padNum 2 dt.minute ++ (if hs then padNum 2 dt.second else []))

/-- The test of the regex matching T followed by six digits at the end of the
string, deciding whether the value carries seconds. -/
def hasSecondsB (s : L) : Bool :=
  match s.reverse with
  | a :: b :: c :: d :: e :: f :: g :: _ =>
    a.isDigit && b.isDigit && c.isDigit && d.isDigit && e.isDigit && f.isDigit && g = 'T'
  | _ => false

/-- JavaScript `value.replace("Z", "")`: remove the first occurrence of Z. -/
def removeFirstZ : L → L
  | [] => []
  | c :: cs => if c = 'Z' then cs else c :: removeFirstZ cs

/-- Instant of a wall-clock reading in a zone, following luxon's two-pass
offset fixpoint search (offsets in seconds). -/
def tsOfWall (off : Int → Int) (w : Int) : Int :=
  let o0 := off w
  let g1 := w - o0
  let o1 := off g1
  if o1 = o0 then g1
  else
    let g2 := g1 - (o1 - o0)
    let o2 := off g2
    if o2 = o1 then g2 else w - min o1 o2

/-- The transform policy: target zone name and the override flag. -/
structure TransformOptions where
  targetTz : L
  overrideExistingTz : Bool

/-- Drop one leading semicolon, as `p.replace(/^;/, "")`. -/
def stripLeadSemi : L → L
  | ';' :: r => r
  | r => r

/-- The parameter pieces of the optional parameter segment, as `buildParams`
computes them before filtering. -/
def partsOf : Option L → List L
  | none => []
  | some p =>
    let base := stripLeadSemi p
    if base = [] then [] else splitOnChar ';' base

/-- A parameter piece that starts, case-insensitively, with TZID=. -/
def isTzidParam (kv : L) : Bool := (chars "TZID=").isPrefixOf (upper kv)

/-- `buildParams`: drop any existing TZID parameter, put the injected one first,
render with semicolons and a leading semicolon. -/
def buildParams (p : Option L) (inject : L) : L :=
  ';' :: joinSep [';'] (inject :: (partsOf p).filter (fun kv => !isTzidParam kv))

/-- First alternative of the property-name alternation that matches
case-insensitively at the start of the line. -/
def matchProp (line : L) : Option L :=
  if (chars "DTSTART").isPrefixOf (upper line) then some (chars "DTSTART")
  else if (chars "DTEND").isPrefixOf (upper line) then some (chars "DTEND")
  else if (chars "RECURRENCE-ID").isPrefixOf (upper line) then some (chars "RECURRENCE-ID")
  else if (chars "EXDATE").isPrefixOf (upper line) then some (chars "EXDATE")
  else none

/-- A value character that is neither CR nor LF. -/
def okValueCh (c : Char) : Bool := c ≠ '\r' && c ≠ '\n'

/-- The anchored match of the classifier's line regex: property name, optional
nonempty colon-free parameter segment introduced by a semicolon, a colon and a
nonempty CR-LF-free value running to the end of the line. -/
def matchDtLine (line : L) : Option (L × Option L × L) :=
  match matchProp line with
  | none => none
  | some P =>
    let p := line.take P.length
    let rest := line.drop P.length
    match rest with
    | ':' :: v => if v ≠ [] ∧ v.all okValueCh then some (p, none, v) else none
    | ';' :: r =>
      let ps := (';' :: r).takeWhile (fun c => c ≠ ':')
      let after := (';' :: r).drop ps.length
      match after with
      | ':' :: v =>
        if 2 ≤ ps.length ∧ v ≠ [] ∧ v.all okValueCh then some (p, some ps, v) else none
      | _ => none
    | _ => none

/-- `transformDateTimeLine`: classify and rewrite one date-time property line.
`env` interprets zone names as offset functions (seconds east of UTC at a
given instant); the universal zone is the constant zero offset. -/
def transformDateTimeLine (env : L → Int → Int) (opts : TransformOptions) (line : L) : L :=
  match matchDtLine line with
  | none => line
  | some (p, ps, v) =>
    if isAllDay line then line
    else
      let dtBasic := removeFirstZ v
      let hs := hasSecondsB dtBasic
      if v.getLast? = some 'Z' then
        match luxonParse hs dtBasic with
        | none => line
        | some dt =>
          let e := epochOfDT dt
          let w := dtOfEpoch (e + env opts.targetTz e)
          p ++ buildParams ps (chars "TZID=" ++ opts.targetTz) ++ ':' :: fmtDT hs w
      else
        match extractExistingTzid ps with
        | some t =>
          if opts.overrideExistingTz = false then line
          else
            let mapped := mapWindowsToIana t
            let fromOff : Int → Int := if isLikelyIana mapped then env mapped else fun _ => 0
            match luxonParse hs dtBasic with
            | none => line
            | some dt =>
              let inst := tsOfWall fromOff (epochOfDT dt)
              let w := dtOfEpoch (inst + env opts.targetTz inst)
              p ++ buildParams ps (chars "TZID=" ++ opts.targetTz) ++ ':' :: fmtDT hs w
        | none => p ++ buildParams ps (chars "TZID=" ++ opts.targetTz) ++ ':' :: dtBasic

/-- `vtimezoneBlock`: the fixed synthesized timezone-definition block. -/
def vtimezoneBlock (tzid : L) : List L :=
  [chars "BEGIN:VTIMEZONE",
   chars "TZID:" ++ tzid,
   chars "X-LIC-LOCATION:" ++ tzid,
   chars "BEGIN:DAYLIGHT",
   chars "TZOFFSETFROM:+0100",
   chars "TZOFFSETTO:+0200",
   chars "TZNAME:GMT+2",
   chars "DTSTART:19700329T020000",
   chars "RRULE:FREQ=YEARLY;BYMONTH=3;BYDAY=-1SU",
   chars "END:DAYLIGHT",
   chars "BEGIN:STANDARD",
   chars "TZOFFSETFROM:+0200",
   chars "TZOFFSETTO:+0100",
   chars "TZNAME:GMT+1",
   chars "DTSTART:19701025T030000",
   chars "RRULE:FREQ=YEARLY;BYMONTH=10;BYDAY=-1SU",
   chars "END:STANDARD",
   chars "END:VTIMEZONE"]

/-- A line that declares a zone: starts with TZID: case-insensitively and
contains the zone name as a substring (case-sensitively). -/
def tzidDecl (tz x : L) : Bool :=
  (chars "TZID:").isPrefixOf (upper x) && x.tails.any (fun t => tz.isPrefixOf t)

/-- A timezone-definition open marker line (prefix test, as in the source). -/
def isBeginVtz (x : L) : Bool := (chars "BEGIN:VTIMEZONE").isPrefixOf (upper x)

/-- A timezone-definition close marker line (prefix test). -/
def isEndVtz (x : L) : Bool := (chars "END:VTIMEZONE").isPrefixOf (upper x)

/-- An event open marker line (prefix test). -/
def isBeginVevent (x : L) : Bool := (chars "BEGIN:VEVENT").isPrefixOf (upper x)

/-- Skip through the first close marker, returning what follows it, or none
if no close marker exists. -/
def dropThroughEndVtz : List L → Option (List L)
  | [] => none
  | y :: ys => if isEndVtz y then some ys else dropThroughEndVtz ys

/-- Replace the first complete timezone-definition block by the given block;
none when there is an open marker with no close marker after it, or no open
marker at all. -/
def replaceVtz (block : List L) : List L → Option (List L)
  | [] => none
  | x :: xs =>
    if isBeginVtz x then (dropThroughEndVtz xs).map (fun rest => block ++ rest)
    else (replaceVtz block xs).map (fun r => x :: r)

/-- Insert the block immediately before the first event open marker, or append
it at the end when there is none. -/
def insertBeforeVevent (block : List L) : List L → List L
  | [] => block
  | x :: xs =>
    if isBeginVevent x then block ++ x :: xs else x :: insertBeforeVevent block xs

/-- The document-level timezone-definition integration step of `transformIcs`:
only when the zone passes the shape test and no line declares it, replace the
first definition block, or insert before the first event, or append. -/
def applyVtz (tz : L) (ls : List L) : List L :=
  if isLikelyIana tz = false then ls
  else if ls.any (tzidDecl tz) then ls
  else if ls.any isBeginVtz then
    match replaceVtz (vtimezoneBlock tz) ls with
    | some r => r
    | none => ls
  else insertBeforeVevent (vtimezoneBlock tz) ls

/-- `getFieldName`: uppercase field name before the first semicolon of the
part before the first colon; empty when the line has no colon. -/
def getFieldName (l : L) : L :=
  if l.any (fun c => c = ':') then
    upper ((l.takeWhile (fun c => c ≠ ':')).takeWhile (fun c => c ≠ ';'))
  else []

/-- `fieldOrder`: the canonical field emission order. -/
def fieldOrder : List L :=
  [chars "UID", chars "DTSTAMP", chars "DTSTART", chars "DTEND", chars "DURATION",
   chars "RRULE", chars "RDATE", chars "EXDATE", chars "EXRULE", chars "RECURRENCE-ID",
   chars "SUMMARY", chars "DESCRIPTION", chars "LOCATION", chars "CLASS",
   chars "PRIORITY", chars "TRANSP", chars "STATUS", chars "SEQUENCE",
   chars "ORGANIZER", chars "ATTENDEE", chars "CREATED", chars "LAST-MODIFIED",
   chars "URL"]

/-- Content of one description segment: after the first colon, or after one
leading space or tab, or the whole segment. -/
def descPart (l : L) : L :=
  if l.any (fun c => c = ':') then (l.dropWhile (fun c => c ≠ ':')).drop 1
  else
    match l with
    | ' ' :: r => r
    | '\t' :: r => r
    | _ => l

/-- Remove a trailing backslash followed only by whitespace, as the first
trailing-artifact regex replacement does: the only candidate is the
character immediately before the trailing whitespace run, since the run
itself cannot contain a backslash. -/
def stripTrailMatch (start : Char) (l : L) : L :=
  let r := l.reverse.dropWhile isJsWS
  match r with
  | c :: rest => if c = start then rest.reverse else l
  | [] => l

/-- Remove the trailing-newline artifact as the second regex replacement
does (a newline followed only by whitespace, anchored at the end): the match
starts at the first newline of the trailing whitespace run, so everything
from that newline on is removed while the run's leading non-newline
whitespace is kept. -/
def stripTrailNL (l : L) : L :=
  let r := l.reverse
  let ws := r.takeWhile isJsWS
  if '\n' ∈ ws then (r.drop ws.length).reverse ++ ws.reverse.takeWhile (fun c => c ≠ '\n')
  else l

/-- Continuation chunks of the rebuilt description: 74 characters each,
prefixed with one space (fuel-driven). -/
def descChunks : Nat → L → List L
  | 0, _ => []
  | f + 1, l => if l = [] then [] else (' ' :: l.take 74) :: descChunks f (l.drop 74)

/-- `fixDescription`: reassemble, strip trailing artifacts, drop when blank,
re-segment at 75 then 74 characters. -/
def fixDescription (descLines : List L) : List L :=
  match descLines with
  | [] => []
  | _ =>
    let full0 := (descLines.map descPart).flatten
    let full1 := stripTrailMatch '\\' full0
    let full := stripTrailNL full1
    if full.all isJsWS then []
    else if full.length ≤ 75 then [chars "DESCRIPTION:" ++ full]
    else (chars "DESCRIPTION:" ++ full.take 75) :: descChunks full.length (full.drop 75)

/-- State of the field-grouping loop of `sortVEventFields`. The field map is
kept as an append-only log read back last-entry-first, matching a JavaScript
Map whose set overwrites and whose get returns the latest value. -/
structure SortSt where
  fieldsLog : List (L × List L)
  xFields : List L
  otherFields : List L
  currentField : Option L
  currentLines : List L

/-- Save the current field run into the extension, canonical or other bucket. -/
def saveCurrent (st : SortSt) : SortSt :=
  match st.currentField with
  | none => st
  | some f =>
    if (chars "X-").isPrefixOf f then
      { st with xFields := st.xFields ++ st.currentLines, currentLines := [] }
    else if fieldOrder.contains f then
      { st with fieldsLog := st.fieldsLog ++ [(f, st.currentLines)], currentLines := [] }
    else
      { st with otherFields := st.otherFields ++ st.currentLines, currentLines := [] }

/-- One step of the grouping loop. -/
def sortStep (st : SortSt) (line : L) : SortSt :=
  let f := getFieldName line
  if f = [] then
    match st.currentField with
    | some _ => { st with currentLines := st.currentLines ++ [line] }
    | none => st
  else
    let st2 := saveCurrent st
    { st2 with currentField := some f, currentLines := st2.currentLines ++ [line] }

/-- Latest value set for a key in the log (JavaScript Map get). -/
def assocGetLast (log : List (L × List L)) (k : L) : Option (List L) :=
  (log.reverse.find? (fun kv => kv.1 == k)).map (fun kv => kv.2)

/-- `sortVEventFields`: group the block's lines into field runs, then emit
canonical fields in `fieldOrder` (repairing the description), then the other
fields, then the extension fields. -/
def sortVEventFields (eventLines : List L) : List L :=
  let st := eventLines.foldl sortStep ⟨[], [], [], none, []⟩
  let st2 := saveCurrent st
  (fieldOrder.map fun f =>
    match assocGetLast st2.fieldsLog f with
    | none => []
    | some lsf => if f = chars "DESCRIPTION" then fixDescription lsf else lsf).flatten
  ++ st2.otherFields ++ st2.xFields

/-- Loop of `fixVEventStructure`: buffer event lines (the open marker included,
as in the source), sort at the close marker, supply a close marker at end of
input when one is missing. -/
def fixVEventAux : List L → List L → Bool → List L
  | [], cur, inside =>
    if inside ∧ cur ≠ [] then sortVEventFields cur ++ [chars "END:VEVENT"] else []
  | l :: ls, cur, inside =>
    if upper l = chars "BEGIN:VEVENT" then fixVEventAux ls [l] true
    else if upper l = chars "END:VEVENT" then
      if inside then sortVEventFields cur ++ chars "END:VEVENT" :: fixVEventAux ls [] false
      else l :: fixVEventAux ls cur false
    else if inside then fixVEventAux ls (cur ++ [l]) true
    else l :: fixVEventAux ls cur inside

/-- `fixVEventStructure` over a whole line sequence. -/
def fixVEventStructure (lines : List L) : List L := fixVEventAux lines [] false

/-- A recognized date-time property prefix (dispatch test of the pipeline). -/
def isDtProp (u : L) : Bool :=
  (chars "DTSTART").isPrefixOf u || (chars "DTEND").isPrefixOf u
    || (chars "RECURRENCE-ID").isPrefixOf u || (chars "EXDATE").isPrefixOf u

/-- The per-line rewriting pass of `transformIcs`, tracking the
inside-timezone-definition flag. -/
def icsMapLines (env : L → Int → Int) (opts : TransformOptions) : Bool → List L → List L
  | _, [] => []
  | inVtz, l :: ls =>
    let u := upper l
    if u = chars "BEGIN:VTIMEZONE" then l :: icsMapLines env opts true ls
    else if u = chars "END:VTIMEZONE" then l :: icsMapLines env opts false ls
    else if inVtz then l :: icsMapLines env opts true ls
    else if isDtProp u then transformDateTimeLine env opts l :: icsMapLines env opts false ls
    else l :: icsMapLines env opts false ls

/-- Rewrite the first product-identifier line to the fixed canonical value. -/
def fixProdid : List L → List L
  | [] => []
  | l :: ls =>
    if (chars "PRODID:").isPrefixOf (upper l) then
      chars "PRODID:-//Google Inc//Google Calendar 70.9054//EN" :: ls
    else l :: fixProdid ls

/-- `transformIcs`: unfold, rewrite date-time lines outside definition blocks,
integrate the timezone-definition block, canonicalize the product identifier,
normalize event blocks, fold and terminate with CRLF. -/
def transformIcs (env : L → Int → Int) (targetTz : L) (overrideExistingTz : Bool) (ics : L) : L :=
  let lines := unfoldICSLines ics
  let transformed := icsMapLines env ⟨targetTz, overrideExistingTz⟩ false lines
  let withVtz := applyVtz targetTz transformed
  let withProd := fixProdid withVtz
  let fixed := fixVEventStructure withProd
  foldICSLines fixed ++ chars "\r\n"

/-- Field name of a line for specification statements: the part before the
first colon and before the first semicolon, case preserved. -/
def nameOf (l : L) : L := (l.takeWhile (fun c => c ≠ ':')).takeWhile (fun c => c ≠ ';')

/-- Parameter pieces of a line for specification statements: the
semicolon-separated pieces after the name and before the first colon. -/
def paramsOf (l : L) : List L := (splitOnChar ';' (l.takeWhile (fun c => c ≠ ':'))).drop 1

/-- Value of a line for specification statements: everything after the first
colon. -/
def valueOf (l : L) : L := (l.dropWhile (fun c => c ≠ ':')).drop 1

/- ------------------------------------------------------------------ -/
/- Generic lemmas about the string-operation models.                   -/
/- ------------------------------------------------------------------ -/

theorem takeWhile_append_all {p : Char → Bool} {a b : L} (h : ∀ x ∈ a, p x = true) :
    (a ++ b).takeWhile p = a ++ b.takeWhile p := by
  induction a with
  | nil => simp
  | cons x xs ih =>
    have hx := h x (by simp)
    simp [List.takeWhile_cons, hx, ih (fun y hy => h y (by simp [hy]))]

theorem dropWhile_append_all {p : Char → Bool} {a b : L} (h : ∀ x ∈ a, p x = true) :
    (a ++ b).dropWhile p = b.dropWhile p := by
  induction a with
  | nil => simp
  | cons x xs ih =>
    have hx := h x (by simp)
    simp [List.dropWhile_cons, hx, ih (fun y hy => h y (by simp [hy]))]

theorem splitOnChar_cons (c x : Char) (xs : L) {y : L} {ys : List L}
    (h : splitOnChar c xs = y :: ys) :
    splitOnChar c (x :: xs) = if x = c then [] :: y :: ys else (x :: y) :: ys := by
  simp only [splitOnChar, h]

theorem splitOnChar_ne_nil (c : Char) (l : L) : splitOnChar c l ≠ [] := by
  induction l with
  | nil => simp [splitOnChar]
  | cons x xs ih =>
    obtain ⟨y, ys, h⟩ := List.exists_cons_of_ne_nil ih
    rw [splitOnChar_cons c x xs h]
    split <;> simp

theorem splitOnChar_not_mem {c : Char} {a : L} (h : c ∉ a) : splitOnChar c a = [a] := by
  induction a with
  | nil => rfl
  | cons x xs ih =>
    have hx : ¬ x = c := fun he => h (by simp [he])
    have hxs := ih (fun hm => h (by simp [hm]))
    rw [splitOnChar_cons c x xs hxs, if_neg hx]

theorem splitOnChar_append_sep {c : Char} {a b : L} (h : c ∉ a) :
    splitOnChar c (a ++ c :: b) = a :: splitOnChar c b := by
  induction a with
  | nil =>
    obtain ⟨y, ys, hb⟩ := List.exists_cons_of_ne_nil (splitOnChar_ne_nil c b)
    simpa [hb] using splitOnChar_cons c c b hb
  | cons x xs ih =>
    have hx : ¬ x = c := fun he => h (by simp [he])
    have hxs := ih (fun hm => h (by simp [hm]))
    obtain ⟨y, ys, hb⟩ := List.exists_cons_of_ne_nil (splitOnChar_ne_nil c b)
    rw [hb] at hxs
    rw [List.cons_append, splitOnChar_cons c x (xs ++ c :: b) hxs, if_neg hx, hb]

theorem splitOnChar_joinSep {c : Char} {parts : List L}
    (hne : parts ≠ []) (h : ∀ q ∈ parts, c ∉ q) :
    splitOnChar c (joinSep [c] parts) = parts := by
  induction parts with
  | nil => exact absurd rfl hne
  | cons q qs ih =>
    cases qs with
    | nil => simpa [joinSep] using splitOnChar_not_mem (h q (by simp))
    | cons q2 qs2 =>
      have hq : c ∉ q := h q (by simp)
      have hj : joinSep [c] (q :: q2 :: qs2) = q ++ c :: joinSep [c] (q2 :: qs2) := by
        simp [joinSep]
      rw [hj, splitOnChar_append_sep hq, ih (by simp) (fun r hr => h r (by simp [hr]))]

theorem mem_of_mem_splitOnChar {c : Char} {l q : L} (hq : q ∈ splitOnChar c l) :
    ∀ x ∈ q, x ∈ l := by
  induction l generalizing q with
  | nil =>
    simp only [splitOnChar, List.mem_singleton] at hq
    subst hq; intro x hx; cases hx
  | cons y ys ih =>
    intro x hx
    obtain ⟨z, zs, hsplit⟩ := List.exists_cons_of_ne_nil (splitOnChar_ne_nil c ys)
    rw [splitOnChar_cons c y ys hsplit] at hq
    by_cases hy : y = c
    · rw [if_pos hy] at hq
      rcases List.mem_cons.mp hq with hq | hq
      · subst hq; cases hx
      · exact List.mem_cons_of_mem _ (ih (hsplit ▸ hq) x hx)
    · rw [if_neg hy] at hq
      rcases List.mem_cons.mp hq with hq | hq
      · subst hq
        rcases List.mem_cons.mp hx with hx | hx
        · exact hx ▸ List.mem_cons_self _ _
        · exact List.mem_cons_of_mem _ (ih (hsplit ▸ List.mem_cons_self z zs) x hx)
      · exact List.mem_cons_of_mem _ (ih (hsplit ▸ List.mem_cons_of_mem z hq) x hx)

theorem not_mem_of_mem_splitOnChar {c : Char} {l q : L} (hq : q ∈ splitOnChar c l) :
    c ∉ q := by
  induction l generalizing q with
  | nil =>
    simp only [splitOnChar, List.mem_singleton] at hq
    subst hq; simp
  | cons y ys ih =>
    obtain ⟨z, zs, hsplit⟩ := List.exists_cons_of_ne_nil (splitOnChar_ne_nil c ys)
    rw [splitOnChar_cons c y ys hsplit] at hq
    by_cases hy : y = c
    · rw [if_pos hy] at hq
      rcases List.mem_cons.mp hq with hq | hq
      · subst hq; simp
      · exact ih (hsplit ▸ hq)
    · rw [if_neg hy] at hq
      rcases List.mem_cons.mp hq with hq | hq
      · subst hq
        intro hc
        rcases List.mem_cons.mp hc with hc | hc
        · exact hy hc.symm
        · exact ih (hsplit ▸ List.mem_cons_self z zs) hc
      · exact ih (hsplit ▸ List.mem_cons_of_mem z hq)

theorem mem_joinSep {sep : L} {parts : List L} {x : Char}
    (hx : x ∈ joinSep sep parts) : x ∈ sep ∨ ∃ q ∈ parts, x ∈ q := by
  induction parts with
  | nil => cases hx
  | cons q qs ih =>
    cases qs with
    | nil => exact Or.inr ⟨q, by simp, by simpa [joinSep] using hx⟩
    | cons q2 qs2 =>
      simp only [joinSep, List.append_assoc, List.mem_append] at hx
      rcases hx with hx | hx | hx
      · exact Or.inr ⟨q, by simp, hx⟩
      · exact Or.inl hx
      · rcases ih hx with h | ⟨r, hr, hxr⟩
        · exact Or.inl h
        · exact Or.inr ⟨r, List.mem_cons_of_mem _ hr, hxr⟩

theorem removeFirstZ_of_not_mem {l : L} (h : 'Z' ∉ l) : removeFirstZ l = l := by
  induction l with
  | nil => rfl
  | cons c cs ih =>
    have hc : ¬ c = 'Z' := fun he => h (by simp [he])
    simp only [removeFirstZ, if_neg hc]
    rw [ih (fun hm => h (by simp [hm]))]

theorem mem_removeFirstZ {l : L} {c : Char} (hm : c ∈ l) (hne : c ≠ 'Z') :
    c ∈ removeFirstZ l := by
  induction l with
  | nil => cases hm
  | cons d ds ih =>
    simp only [removeFirstZ]
    by_cases hd : d = 'Z'
    · rw [if_pos hd]
      rcases List.mem_cons.mp hm with h | h
      · exact absurd (h.trans hd) hne
      · exact h
    · rw [if_neg hd]
      rcases List.mem_cons.mp hm with h | h
      · exact h ▸ List.mem_cons_self _ _
      · exact List.mem_cons_of_mem _ (ih h)

theorem getLast?_append_right {l₁ l₂ : L} (h : l₂ ≠ []) :
    (l₁ ++ l₂).getLast? = l₂.getLast? := by
  rcases (List.eq_nil_or_concat l₂) with rfl | ⟨ys, y, rfl⟩
  · exact absurd rfl h
  · rw [List.concat_eq_append, ← List.append_assoc, List.getLast?_concat, List.getLast?_concat]

theorem takeWhile_cons_pos (p : Char → Bool) (x : Char) (l : L) (h : p x = true) :
    (x :: l).takeWhile p = x :: l.takeWhile p := by
  simp [List.takeWhile_cons, h]

theorem takeWhile_cons_neg (p : Char → Bool) (x : Char) (l : L) (h : p x = false) :
    (x :: l).takeWhile p = [] := by
  simp [List.takeWhile_cons, h]

theorem dropWhile_cons_pos (p : Char → Bool) (x : Char) (l : L) (h : p x = true) :
    (x :: l).dropWhile p = l.dropWhile p := by
  simp [List.dropWhile_cons, h]

theorem dropWhile_cons_neg (p : Char → Bool) (x : Char) (l : L) (h : p x = false) :
    (x :: l).dropWhile p = x :: l := by
  simp [List.dropWhile_cons, h]

theorem drop_takeWhile_length (p : Char → Bool) (l : L) :
    l.drop (l.takeWhile p).length = l.dropWhile p := by
  induction l with
  | nil => rfl
  | cons x xs ih =>
    by_cases h : p x = true
    · rw [takeWhile_cons_pos p x xs h, dropWhile_cons_pos p x xs h]
      simpa using ih
    · rw [takeWhile_cons_neg p x xs (by simpa using h), dropWhile_cons_neg p x xs (by simpa using h)]
      rfl

/- ------------------------------------------------------------------ -/
/- Structure of rebuilt property lines.                                -/
/- ------------------------------------------------------------------ -/

theorem builtLine_parts (p inj : L) (parts : List L) (w : L)
    (hpc : ':' ∉ p) (hpsemi : ';' ∉ p) (hic : ':' ∉ inj) (hisemi : ';' ∉ inj)
    (hqc : ∀ q ∈ parts, ':' ∉ q) (hqsemi : ∀ q ∈ parts, ';' ∉ q) :
    nameOf (p ++ (';' :: joinSep [';'] (inj :: parts)) ++ ':' :: w) = p ∧
    paramsOf (p ++ (';' :: joinSep [';'] (inj :: parts)) ++ ':' :: w) = inj :: parts ∧
    valueOf (p ++ (';' :: joinSep [';'] (inj :: parts)) ++ ':' :: w) = w := by
  set J := joinSep [';'] (inj :: parts) with hJ
  have hJc : ':' ∉ J := by
    intro hmem
    rcases mem_joinSep hmem with hsep | ⟨q, hq, hxq⟩
    · simp at hsep
    · rcases List.mem_cons.mp hq with rfl | hq
      · exact hic hxq
      · exact hqc q hq hxq
  have hpP : ∀ x ∈ p, (fun c => decide (c ≠ ':')) x = true := by
    intro x hx
    simp only [decide_eq_true_eq]
    exact fun he => hpc (he ▸ hx)
  have hJP : ∀ x ∈ J, (fun c => decide (c ≠ ':')) x = true := by
    intro x hx
    simp only [decide_eq_true_eq]
    exact fun he => hJc (he ▸ hx)
  have htw : (p ++ (';' :: J) ++ ':' :: w).takeWhile (fun c => decide (c ≠ ':')) =
      p ++ ';' :: J := by
    rw [List.append_assoc, takeWhile_append_all hpP, List.cons_append,
      takeWhile_cons_pos (fun c => decide (c ≠ ':')) ';' (J ++ ':' :: w) (by decide),
      takeWhile_append_all hJP,
      takeWhile_cons_neg (fun c => decide (c ≠ ':')) ':' w (by decide), List.append_nil]
  refine ⟨?_, ?_, ?_⟩
  · show ((p ++ (';' :: J) ++ ':' :: w).takeWhile _).takeWhile _ = p
    rw [htw]
    have hpS : ∀ x ∈ p, (fun c => decide (c ≠ ';')) x = true := by
      intro x hx
      simp only [decide_eq_true_eq]
      exact fun he => hpsemi (he ▸ hx)
    rw [takeWhile_append_all hpS,
      takeWhile_cons_neg (fun c => decide (c ≠ ';')) ';' J (by decide), List.append_nil]
  · show (splitOnChar ';' ((p ++ (';' :: J) ++ ':' :: w).takeWhile _)).drop 1 = inj :: parts
    rw [htw, splitOnChar_append_sep hpsemi, hJ, splitOnChar_joinSep (by simp) ?_]
    · simp
    · intro q hq
      rcases List.mem_cons.mp hq with rfl | hq
      · exact hisemi
      · exact hqsemi q hq
  · show ((p ++ (';' :: J) ++ ':' :: w).dropWhile _).drop 1 = w
    rw [List.append_assoc, dropWhile_append_all hpP, List.cons_append,
      dropWhile_cons_pos (fun c => decide (c ≠ ':')) ';' (J ++ ':' :: w) (by decide),
      dropWhile_append_all hJP,
      dropWhile_cons_neg (fun c => decide (c ≠ ':')) ':' w (by decide)]
    rfl

theorem matchProp_spec {line P : L} (h : matchProp line = some P) :
    P.isPrefixOf (upper line) = true ∧ ':' ∉ P ∧ ';' ∉ P := by
  unfold matchProp at h
  split_ifs at h with h1 h2 h3 h4 <;> first
  | (injection h with h; subst h; exact ⟨by assumption, by decide, by decide⟩)
  | (cases h)

theorem take_of_isPrefixOf_upper {line P : L} (hpre : P.isPrefixOf (upper line) = true) :
    upper (line.take P.length) = P := by
  have hp : P <+: upper line := List.isPrefixOf_iff_prefix.mp hpre
  obtain ⟨t, ht⟩ := hp
  have hmt : upper (line.take P.length) = (upper line).take P.length := by
    simp [upper, List.map_take]
  rw [hmt, ← ht, List.take_left]

theorem clean_of_upper_eq {p P : L} (hup : upper p = P)
    (hc : ':' ∉ P) (hs : ';' ∉ P) : ':' ∉ p ∧ ';' ∉ p := by
  constructor
  · intro hmem
    have hmm : Char.toUpper ':' ∈ upper p := List.mem_map_of_mem Char.toUpper hmem
    rw [hup] at hmm
    exact hc (by simpa using hmm)
  · intro hmem
    have hmm : Char.toUpper ';' ∈ upper p := List.mem_map_of_mem Char.toUpper hmem
    rw [hup] at hmm
    exact hs (by simpa using hmm)

theorem mem_stripLeadSemi {l : L} {x : Char} (h : x ∈ stripLeadSemi l) : x ∈ l := by
  unfold stripLeadSemi at h
  split at h
  · exact List.mem_cons_of_mem _ h
  · exact h

theorem partsOf_no_semi {ps : Option L} : ∀ q ∈ partsOf ps, ';' ∉ q := by
  intro q hq
  unfold partsOf at hq
  rcases ps with _ | pr
  · cases hq
  · simp only at hq
    split at hq
    · cases hq
    · exact not_mem_of_mem_splitOnChar hq

theorem partsOf_no_colon {pr : L} (hc : ':' ∉ pr) : ∀ q ∈ partsOf (some pr), ':' ∉ q := by
  intro q hq hcq
  unfold partsOf at hq
  simp only at hq
  split at hq
  · cases hq
  · exact hc (mem_stripLeadSemi (mem_of_mem_splitOnChar hq ':' hcq))

theorem matchDtLine_inv {line p : L} {ps : Option L} {v : L}
    (h : matchDtLine line = some (p, ps, v)) :
    (':' ∉ p ∧ ';' ∉ p) ∧
    line = p ++ ps.getD [] ++ ':' :: v ∧
    (∀ pr, ps = some pr → ':' ∉ pr ∧ ∃ r0, pr = ';' :: r0 ∧ r0 ≠ []) := by
  unfold matchDtLine at h
  cases hmp : matchProp line with
  | none => rw [hmp] at h; cases h
  | some P =>
    rw [hmp] at h
    simp only at h
    obtain ⟨hpre, hPc, hPs⟩ := matchProp_spec hmp
    have hclean := clean_of_upper_eq (take_of_isPrefixOf_upper hpre) hPc hPs
    split at h
    next v0 heq =>
      split at h
      next hg =>
        simp only [Option.some.injEq, Prod.mk.injEq] at h
        obtain ⟨hp, hps, hv⟩ := h
        subst hp
        subst hv
        rw [← hps]
        refine ⟨hclean, ?_, ?_⟩
        · conv_lhs => rw [← List.take_append_drop P.length line]
          rw [heq]
          simp
        · intro pr hpr
          cases hpr
      next hg => cases h
    next r heq =>
      split at h
      next v0 hafter =>
        split at h
        next hg =>
          simp only [Option.some.injEq, Prod.mk.injEq] at h
          obtain ⟨hp, hps, hv⟩ := h
          subst hp
          subst hv
          rw [← hps]
          have hdw : (';' :: r).dropWhile (fun c => decide (c ≠ ':')) = ':' :: v0 := by
            rw [← drop_takeWhile_length (fun c => decide (c ≠ ':')) (';' :: r)]
            exact hafter
          have hrec : (';' :: r) =
              (';' :: r).takeWhile (fun c => decide (c ≠ ':')) ++ ':' :: v0 := by
            rw [← hdw, List.takeWhile_append_dropWhile]
          refine ⟨hclean, ?_, ?_⟩
          · conv_lhs => rw [← List.take_append_drop P.length line, heq, hrec]
            rw [Option.getD_some, List.append_assoc]
          · intro pr2 hpr2
            injection hpr2 with hpr2
            subst hpr2
            constructor
            · intro hmem
              have hP := List.mem_takeWhile_imp hmem
              simp at hP
            · refine ⟨r.takeWhile (fun c => decide (c ≠ ':')),
                takeWhile_cons_pos (fun c => decide (c ≠ ':')) ';' r (by decide), ?_⟩
              intro hnil
              have hlen := hg.1
              rw [takeWhile_cons_pos (fun c => decide (c ≠ ':')) ';' r (by decide), hnil] at hlen
              simp at hlen
        next hg => cases h
      next hafter => cases h
    next hne1 hne2 => cases h

theorem takeWhile_of_all {p : Char → Bool} {a : L} (h : ∀ x ∈ a, p x = true) :
    a.takeWhile p = a := by
  have hb := takeWhile_append_all (b := []) h
  simpa using hb

theorem pred_colon_of_not_mem {a : L} (h : ':' ∉ a) :
    ∀ x ∈ a, (fun c => decide (c ≠ ':')) x = true := by
  intro x hx
  simp only [decide_eq_true_eq]
  exact fun he => h (he ▸ hx)

theorem pred_semi_of_not_mem {a : L} (h : ';' ∉ a) :
    ∀ x ∈ a, (fun c => decide (c ≠ ';')) x = true := by
  intro x hx
  simp only [decide_eq_true_eq]
  exact fun he => h (he ▸ hx)

/-- The specification views of a line matched by the classifier regex agree
with the match: its name is the property, its parameter pieces are the pieces
`buildParams` starts from, its value is the matched value. -/
theorem matched_line_views {line p : L} {ps : Option L} {v : L}
    (hm : matchDtLine line = some (p, ps, v)) :
    nameOf line = p ∧ paramsOf line = partsOf ps ∧ valueOf line = v := by
  obtain ⟨⟨hpc, hpsemi⟩, hline, hpr⟩ := matchDtLine_inv hm
  cases ps with
  | none =>
    simp only [Option.getD_none, List.append_nil] at hline
    have htw : line.takeWhile (fun c => decide (c ≠ ':')) = p := by
      rw [hline, takeWhile_append_all (pred_colon_of_not_mem hpc),
        takeWhile_cons_neg (fun c => decide (c ≠ ':')) ':' v (by decide), List.append_nil]
    refine ⟨?_, ?_, ?_⟩
    · show (line.takeWhile _).takeWhile _ = p
      rw [htw, takeWhile_of_all (pred_semi_of_not_mem hpsemi)]
    · show (splitOnChar ';' (line.takeWhile _)).drop 1 = partsOf none
      rw [htw, splitOnChar_not_mem hpsemi]
      rfl
    · show (line.dropWhile _).drop 1 = v
      rw [hline, dropWhile_append_all (pred_colon_of_not_mem hpc),
        dropWhile_cons_neg (fun c => decide (c ≠ ':')) ':' v (by decide)]
      rfl
  | some pr =>
    obtain ⟨hprc, r0, hr0, hr0ne⟩ := hpr pr rfl
    subst hr0
    have hr0c : ':' ∉ r0 := fun hmem => hprc (List.mem_cons_of_mem _ hmem)
    simp only [Option.getD_some] at hline
    rw [List.append_assoc, List.cons_append] at hline
    have htw : line.takeWhile (fun c => decide (c ≠ ':')) = p ++ ';' :: r0 := by
      rw [hline, takeWhile_append_all (pred_colon_of_not_mem hpc),
        takeWhile_cons_pos (fun c => decide (c ≠ ':')) ';' (r0 ++ ':' :: v) (by decide),
        takeWhile_append_all (pred_colon_of_not_mem hr0c),
        takeWhile_cons_neg (fun c => decide (c ≠ ':')) ':' v (by decide), List.append_nil]
    refine ⟨?_, ?_, ?_⟩
    · show (line.takeWhile _).takeWhile _ = p
      rw [htw, takeWhile_append_all (pred_semi_of_not_mem hpsemi),
        takeWhile_cons_neg (fun c => decide (c ≠ ';')) ';' r0 (by decide), List.append_nil]
    · show (splitOnChar ';' (line.takeWhile _)).drop 1 = partsOf (some (';' :: r0))
      rw [htw, splitOnChar_append_sep hpsemi]
      unfold partsOf stripLeadSemi
      simp only [if_neg hr0ne]
      rfl
    · show (line.dropWhile _).drop 1 = v
      rw [hline, dropWhile_append_all (pred_colon_of_not_mem hpc),
        dropWhile_cons_pos (fun c => decide (c ≠ ':')) ';' (r0 ++ ':' :: v) (by decide),
        dropWhile_append_all (pred_colon_of_not_mem hr0c),
        dropWhile_cons_neg (fun c => decide (c ≠ ':')) ':' v (by decide)]
      rfl

/- ------------------------------------------------------------------ -/
/- Digit rendering lemmas.                                             -/
/- ------------------------------------------------------------------ -/

theorem natDigitsAux_acc : ∀ (f n : Nat) (acc : L),
    natDigitsAux f n acc = natDigitsAux f n [] ++ acc := by
  intro f
  induction f with
  | zero => intro n acc; rfl
  | succ f ih =>
    intro n acc
    by_cases h : n < 10
    · simp [natDigitsAux, h]
    · simp only [natDigitsAux, if_neg h]
      rw [ih (n / 10) (Nat.digitChar (n % 10) :: acc), ih (n / 10) [Nat.digitChar (n % 10)]]
      simp

theorem natDigits_concat (n : Nat) :
    ∃ pre, natDigits n = pre ++ [Nat.digitChar (n % 10)] := by
  unfold natDigits
  by_cases h : n < 10
  · exact ⟨[], by simp [natDigitsAux, h, Nat.mod_eq_of_lt h]⟩
  · refine ⟨natDigitsAux n (n / 10) [], ?_⟩
    simp only [natDigitsAux, if_neg h]
    exact natDigitsAux_acc n (n / 10) [Nat.digitChar (n % 10)]

theorem digitChar_mod_ne_Z (n : Nat) : Nat.digitChar (n % 10) ≠ 'Z' := by
  have h : n % 10 < 10 := Nat.mod_lt _ (by omega)
  revert h
  generalize n % 10 = k
  intro h
  interval_cases k <;> decide

theorem padNum_getLast (w n : Nat) :
    (padNum w n).getLast? = some (Nat.digitChar (n % 10)) := by
  obtain ⟨pre, hpre⟩ := natDigits_concat n
  unfold padNum
  rw [hpre, ← List.append_assoc, List.getLast?_concat]

theorem padNum_ne_nil (w n : Nat) : padNum w n ≠ [] := by
  obtain ⟨pre, hpre⟩ := natDigits_concat n
  unfold padNum
  rw [hpre]
  simp

/-- The formatted wall-clock digits never end with the zone designator. -/
theorem fmtDT_getLast_ne_Z (hs : Bool) (dt : DT) :
    (fmtDT hs dt).getLast? ≠ some 'Z' := by
  unfold fmtDT
  cases hs with
  | true =>
    rw [show (if true = true then padNum 2 dt.second else []) = padNum 2 dt.second by simp]
    rw [getLast?_append_right (by simp), ← List.cons_append,
      getLast?_append_right (padNum_ne_nil 2 dt.second), padNum_getLast]
    exact fun hcon => digitChar_mod_ne_Z dt.second (Option.some.inj hcon)
  | false =>
    rw [show (if false = true then padNum 2 dt.second else []) = [] by simp, List.append_nil]
    rw [getLast?_append_right (by simp), ← List.cons_append,
      getLast?_append_right (padNum_ne_nil 2 dt.minute), padNum_getLast]
    exact fun hcon => digitChar_mod_ne_Z dt.minute (Option.some.inj hcon)

/- ------------------------------------------------------------------ -/
/- Branch evaluation of the classifier.                                -/
/- ------------------------------------------------------------------ -/

theorem transform_utc_eq (env : L → Int → Int) (opts : TransformOptions)
    {line p : L} {ps : Option L} {v : L} {dt : DT}
    (hm : matchDtLine line = some (p, ps, v)) (had : isAllDay line = false)
    (hz : v.getLast? = some 'Z')
    (hparse : luxonParse (hasSecondsB (removeFirstZ v)) (removeFirstZ v) = some dt) :
    transformDateTimeLine env opts line =
      p ++ buildParams ps (chars "TZID=" ++ opts.targetTz) ++ ':' ::
        fmtDT (hasSecondsB (removeFirstZ v))
          (dtOfEpoch (epochOfDT dt + env opts.targetTz (epochOfDT dt))) := by
  unfold transformDateTimeLine
  rw [hm]
  simp [had, hz, hparse]

theorem transform_failsafe (env : L → Int → Int) (opts : TransformOptions)
    {line p : L} {ps : Option L} {v : L}
    (hm : matchDtLine line = some (p, ps, v))
    (hfail : luxonParse (hasSecondsB (removeFirstZ v)) (removeFirstZ v) = none)
    (hguard : v.getLast? = some 'Z' ∨ extractExistingTzid ps ≠ none) :
    transformDateTimeLine env opts line = line := by
  unfold transformDateTimeLine
  rw [hm]
  by_cases had : isAllDay line = true
  · simp [had]
  · by_cases hz : v.getLast? = some 'Z'
    · simp [had, hz, hfail]
    · cases hext : extractExistingTzid ps with
      | none =>
        rcases hguard with h | h
        · exact absurd h hz
        · exact absurd hext h
      | some t =>
        by_cases hov : opts.overrideExistingTz = false
        · simp [had, hz, hext, hov]
        · simp [had, hz, hext, hov, hfail]

theorem transform_floating_eq (env : L → Int → Int) (opts : TransformOptions)
    {line p : L} {ps : Option L} {v : L}
    (hm : matchDtLine line = some (p, ps, v)) (had : isAllDay line = false)
    (hz : ¬ v.getLast? = some 'Z') (hext : extractExistingTzid ps = none) :
    transformDateTimeLine env opts line =
      p ++ buildParams ps (chars "TZID=" ++ opts.targetTz) ++ ':' :: removeFirstZ v := by
  unfold transformDateTimeLine
  rw [hm]
  simp [had, hz, hext]

theorem transform_modified_shape (env : L → Int → Int) (opts : TransformOptions)
    {line p : L} {ps : Option L} {v : L}
    (hm : matchDtLine line = some (p, ps, v))
    (hne : transformDateTimeLine env opts line ≠ line) :
    ∃ w, transformDateTimeLine env opts line =
      p ++ buildParams ps (chars "TZID=" ++ opts.targetTz) ++ ':' :: w := by
  unfold transformDateTimeLine at hne ⊢
  rw [hm] at hne ⊢
  by_cases had : isAllDay line = true
  · simp [had] at hne
  · by_cases hz : v.getLast? = some 'Z'
    · cases hparse : luxonParse (hasSecondsB (removeFirstZ v)) (removeFirstZ v) with
      | none =>
        simp [had, hz, hparse] at hne
      | some dt =>
        simp only [had, if_false, hz]
        simp [hparse]
    · cases hext : extractExistingTzid ps with
      | none =>
        simp [had, hz, hext]
      | some t =>
        by_cases hov : opts.overrideExistingTz = false
        · simp [had, hz, hext, hov] at hne
        · cases hparse : luxonParse (hasSecondsB (removeFirstZ v)) (removeFirstZ v) with
          | none =>
            simp [had, hz, hext, hov, hparse] at hne
          | some dt =>
            simp [had, hz, hext, hov, hparse]

/-- The pieces injected back by `buildParams` are the filtered original
pieces, and both the name, the parameters and the value of the rebuilt line
decompose as expected. -/
theorem rebuilt_line_views (opts : TransformOptions)
    {line p : L} {ps : Option L} {v : L} (hm : matchDtLine line = some (p, ps, v))
    (htc : ':' ∉ opts.targetTz) (hts : ';' ∉ opts.targetTz) (w : L) :
    nameOf (p ++ buildParams ps (chars "TZID=" ++ opts.targetTz) ++ ':' :: w) = p ∧
    paramsOf (p ++ buildParams ps (chars "TZID=" ++ opts.targetTz) ++ ':' :: w) =
      (chars "TZID=" ++ opts.targetTz) ::
        (partsOf ps).filter (fun kv => !isTzidParam kv) ∧
    valueOf (p ++ buildParams ps (chars "TZID=" ++ opts.targetTz) ++ ':' :: w) = w := by
  obtain ⟨⟨hpc, hpsemi⟩, hline, hpr⟩ := matchDtLine_inv hm
  have hic : ':' ∉ chars "TZID=" ++ opts.targetTz := by
    intro hmem
    rcases List.mem_append.mp hmem with hmem | hmem
    · simp [chars] at hmem
    · exact htc hmem
  have hisemi : ';' ∉ chars "TZID=" ++ opts.targetTz := by
    intro hmem
    rcases List.mem_append.mp hmem with hmem | hmem
    · simp [chars] at hmem
    · exact hts hmem
  have hqc : ∀ q ∈ (partsOf ps).filter (fun kv => !isTzidParam kv), ':' ∉ q := by
    intro q hq
    have hq2 := (List.mem_filter.mp hq).1
    cases ps with
    | none => cases hq2
    | some pr =>
      obtain ⟨hprc, r0, hr0, _⟩ := hpr pr rfl
      exact partsOf_no_colon hprc q hq2
  have hqsemi : ∀ q ∈ (partsOf ps).filter (fun kv => !isTzidParam kv), ';' ∉ q := by
    intro q hq
    exact partsOf_no_semi q (List.mem_filter.mp hq).1
  have hbp : buildParams ps (chars "TZID=" ++ opts.targetTz) =
      ';' :: joinSep [';'] ((chars "TZID=" ++ opts.targetTz) ::
        (partsOf ps).filter (fun kv => !isTzidParam kv)) := rfl
  rw [hbp]
  exact builtLine_parts p (chars "TZID=" ++ opts.targetTz)
    ((partsOf ps).filter (fun kv => !isTzidParam kv)) w hpc hpsemi hic hisemi hqc hqsemi

/- ------------------------------------------------------------------ -/
/- Comma-separated value lists never parse.                            -/
/- ------------------------------------------------------------------ -/

theorem luxonParse_some_chars {hs : Bool} {s : L} {dt : DT}
    (h : luxonParse hs s = some dt) : ∀ c ∈ s, c.isDigit = true ∨ c = 'T' ∨ c = 't' := by
  unfold luxonParse at h
  split at h
  next hg =>
    obtain ⟨hlen, hd1, hT, hd2⟩ := hg
    intro c hcmem
    rw [← List.take_append_drop 9 s] at hcmem
    rcases List.mem_append.mp hcmem with hmem | hmem
    · rw [List.take_succ] at hmem
      rcases hT with hT | hT
      · rw [List.get?_eq_getElem?] at hT
        rw [hT] at hmem
        rcases List.mem_append.mp hmem with hmem | hmem
        · exact Or.inl (List.all_eq_true.mp hd1 c hmem)
        · right
          left
          simpa using hmem
      · rw [List.get?_eq_getElem?] at hT
        rw [hT] at hmem
        rcases List.mem_append.mp hmem with hmem | hmem
        · exact Or.inl (List.all_eq_true.mp hd1 c hmem)
        · right
          right
          simpa using hmem
    · exact Or.inl (List.all_eq_true.mp hd2 c hmem)
  next hg => cases h

theorem luxonParse_none_of_comma {hs : Bool} {s : L} (hc : ',' ∈ s) :
    luxonParse hs s = none := by
  cases hp : luxonParse hs s with
  | none => rfl
  | some dt =>
    rcases luxonParse_some_chars hp ',' hc with h | h | h
    · exact absurd h (by decide)
    · exact absurd h (by decide)
    · exact absurd h (by decide)

theorem joinSep_last_endsZ {items : List L}
    (hall : ∀ it ∈ items, it.getLast? = some 'Z') (hne : items ≠ []) :
    (joinSep [','] items).getLast? = some 'Z' := by
  induction items with
  | nil => exact absurd rfl hne
  | cons a rest ih =>
    cases rest with
    | nil => simpa [joinSep] using hall a (by simp)
    | cons b rest2 =>
      have hJ : (joinSep [','] (b :: rest2)).getLast? = some 'Z' :=
        ih (fun it hit => hall it (List.mem_cons_of_mem _ hit)) (by simp)
      have hJne : joinSep [','] (b :: rest2) ≠ [] := by
        intro hnil
        rw [hnil] at hJ
        simp at hJ
      have hsh : joinSep [','] (a :: b :: rest2) =
          a ++ (([','] : L) ++ joinSep [','] (b :: rest2)) := by
        simp [joinSep]
      rw [hsh, getLast?_append_right (by simp), getLast?_append_right hJne, hJ]

/- ------------------------------------------------------------------ -/
/- Claim theorems: the date-time classifier and rewriter.              -/
/- ------------------------------------------------------------------ -/

/-- Supporting lemma for the absolute-UTC branch: a recognized date-time
line, not all-day, whose value ends with the designator Z and whose
digit-string parses, is rewritten by the classifier with the digits
converted from UTC to the target zone's wall-clock (instant plus the zone's
offset at that instant), with no trailing Z, with the TZID parameter set to
the target zone placed first, and with the seconds/no-seconds precision of
the input preserved in the format. -/
theorem utcLineConversion (env : L → Int → Int) (opts : TransformOptions)
    {line p : L} {ps : Option L} {v : L} {dt : DT}
    (hm : matchDtLine line = some (p, ps, v)) (had : isAllDay line = false)
    (hz : v.getLast? = some 'Z')
    (hparse : luxonParse (hasSecondsB (removeFirstZ v)) (removeFirstZ v) = some dt)
    (htc : ':' ∉ opts.targetTz) (hts : ';' ∉ opts.targetTz) :
    nameOf (transformDateTimeLine env opts line) = p ∧
    paramsOf (transformDateTimeLine env opts line) =
      (chars "TZID=" ++ opts.targetTz) :: (paramsOf line).filter (fun kv => !isTzidParam kv) ∧
    valueOf (transformDateTimeLine env opts line) =
      fmtDT (hasSecondsB (removeFirstZ v))
        (dtOfEpoch (epochOfDT dt + env opts.targetTz (epochOfDT dt))) ∧
    (valueOf (transformDateTimeLine env opts line)).getLast? ≠ some 'Z' := by
  have heq := transform_utc_eq env opts hm had hz hparse
  have hviews := rebuilt_line_views opts hm htc hts
    (fmtDT (hasSecondsB (removeFirstZ v))
      (dtOfEpoch (epochOfDT dt + env opts.targetTz (epochOfDT dt))))
  have hlv := matched_line_views hm
  rw [heq]
  refine ⟨hviews.1, ?_, hviews.2.2, ?_⟩
  · rw [hviews.2.1, ← hlv.2.1]
  · rw [hviews.2.2]
    exact fmtDT_getLast_ne_Z _ _

/-- Instance of the previous lemma at the specification scenario: DTSTART
2024-01-01 12:00:00 UTC with a target zone one hour east becomes 13:00:00
wall-clock with TZID. -/
theorem utcLineConversion_witness :
    nameOf (transformDateTimeLine (fun _ _ => 3600) ⟨chars "Europe/Zurich", false⟩
      (chars "DTSTART:20240101T120000Z")) = chars "DTSTART" ∧
    paramsOf (transformDateTimeLine (fun _ _ => 3600) ⟨chars "Europe/Zurich", false⟩
      (chars "DTSTART:20240101T120000Z")) = [chars "TZID=Europe/Zurich"] ∧
    valueOf (transformDateTimeLine (fun _ _ => 3600) ⟨chars "Europe/Zurich", false⟩
      (chars "DTSTART:20240101T120000Z")) = chars "20240101T130000" := by
  have h := @utcLineConversion (fun _ _ => 3600) ⟨chars "Europe/Zurich", false⟩
    (chars "DTSTART:20240101T120000Z") (chars "DTSTART") none
    (chars "20240101T120000Z") ⟨2024, 1, 1, 12, 0, 0⟩
    (by decide) (by decide) (by decide) (by decide) (by decide) (by decide)
  exact ⟨h.1, h.2.1.trans (by decide), h.2.2.1.trans (by decide)⟩

/-- C3 counterexample: a floating value that contains an interior Z (no
trailing Z, no TZID parameter, not all-day) is not kept byte-identical: the
rewriter removes the first Z from the emitted value. -/
theorem floatingInteriorZ_counterexample :
    (chars "2024Z101T1200").getLast? ≠ some 'Z' ∧
    isAllDay (chars "DTSTART:2024Z101T1200") = false ∧
    transformDateTimeLine (fun _ _ => 0) ⟨chars "Europe/Zurich", false⟩
      (chars "DTSTART:2024Z101T1200") =
      chars "DTSTART;TZID=Europe/Zurich:2024101T1200" ∧
    valueOf (transformDateTimeLine (fun _ _ => 0) ⟨chars "Europe/Zurich", false⟩
      (chars "DTSTART:2024Z101T1200")) ≠ chars "2024Z101T1200" := by
  decide

/-- C3 (amended): for a floating recognized date-time line (no trailing Z, no
TZID parameter found, not all-day) whose value contains no Z character at
all, the rewriter attaches the target-zone TZID parameter first and keeps the
value byte-identical. -/
theorem floatingLineTzidAttach (env : L → Int → Int) (opts : TransformOptions)
    {line p : L} {ps : Option L} {v : L}
    (hm : matchDtLine line = some (p, ps, v)) (had : isAllDay line = false)
    (hz : ¬ v.getLast? = some 'Z') (hext : extractExistingTzid ps = none)
    (hnoz : 'Z' ∉ v)
    (htc : ':' ∉ opts.targetTz) (hts : ';' ∉ opts.targetTz) :
    nameOf (transformDateTimeLine env opts line) = p ∧
    paramsOf (transformDateTimeLine env opts line) =
      (chars "TZID=" ++ opts.targetTz) :: (paramsOf line).filter (fun kv => !isTzidParam kv) ∧
    valueOf (transformDateTimeLine env opts line) = v := by
  have heq := transform_floating_eq env opts hm had hz hext
  rw [removeFirstZ_of_not_mem hnoz] at heq
  have hviews := rebuilt_line_views opts hm htc hts v
  have hlv := matched_line_views hm
  rw [heq]
  refine ⟨hviews.1, ?_, hviews.2.2⟩
  rw [hviews.2.1, ← hlv.2.1]

/-- C3 witness: the specification scenario, a floating DTSTART value gets the
TZID attached and the digit-string is unchanged. -/
theorem floatingLineTzidAttach_witness :
    nameOf (transformDateTimeLine (fun _ _ => 3600) ⟨chars "Europe/Zurich", false⟩
      (chars "DTSTART:20240101T120000")) = chars "DTSTART" ∧
    paramsOf (transformDateTimeLine (fun _ _ => 3600) ⟨chars "Europe/Zurich", false⟩
      (chars "DTSTART:20240101T120000")) = [chars "TZID=Europe/Zurich"] ∧
    valueOf (transformDateTimeLine (fun _ _ => 3600) ⟨chars "Europe/Zurich", false⟩
      (chars "DTSTART:20240101T120000")) = chars "20240101T120000" := by
  have h := @floatingLineTzidAttach (fun _ _ => 3600) ⟨chars "Europe/Zurich", false⟩
    (chars "DTSTART:20240101T120000") (chars "DTSTART") none (chars "20240101T120000")
    (by decide) (by decide) (by decide) (by decide) (by decide) (by decide) (by decide)
  exact ⟨h.1, h.2.1.trans (by decide), h.2.2⟩

/-- C9: whenever the rewriter rebuilds a recognized date-time line (the
result differs from the input), the emitted parameter list is exactly the
injected target-zone TZID followed by the original parameters with every
pre-existing TZID parameter removed: the TZID is first, is itself a TZID
parameter, and no parameter after it is one. -/
theorem tzidParamNormalization (env : L → Int → Int) (opts : TransformOptions)
    {line p : L} {ps : Option L} {v : L}
    (hm : matchDtLine line = some (p, ps, v))
    (hne : transformDateTimeLine env opts line ≠ line)
    (htc : ':' ∉ opts.targetTz) (hts : ';' ∉ opts.targetTz) :
    paramsOf (transformDateTimeLine env opts line) =
      (chars "TZID=" ++ opts.targetTz) :: (paramsOf line).filter (fun kv => !isTzidParam kv) ∧
    isTzidParam (chars "TZID=" ++ opts.targetTz) = true ∧
    ∀ kv ∈ (paramsOf line).filter (fun kv => !isTzidParam kv), isTzidParam kv = false := by
  obtain ⟨w, hw⟩ := transform_modified_shape env opts hm hne
  have hviews := rebuilt_line_views opts hm htc hts w
  have hlv := matched_line_views hm
  refine ⟨?_, ?_, ?_⟩
  · rw [hw, hviews.2.1, ← hlv.2.1]
  · unfold isTzidParam upper
    rw [List.map_append]
    have hself : (chars "TZID=").map Char.toUpper = chars "TZID=" := by decide
    rw [hself]
    exact List.isPrefixOf_iff_prefix.mpr (List.prefix_append _ _)
  · intro kv hkv
    have hf := (List.mem_filter.mp hkv).2
    simpa using hf

/-- C9 witness: rewriting a line with parameters X=1, TZID=UTC, Y=2 yields
TZID=Europe/Zurich first, the old TZID dropped, X=1 and Y=2 in order. -/
theorem tzidParamNormalization_witness :
    paramsOf (transformDateTimeLine (fun _ _ => 3600) ⟨chars "Europe/Zurich", true⟩
      (chars "DTSTART;X=1;TZID=UTC;Y=2:20240101T120000Z")) =
      [chars "TZID=Europe/Zurich", chars "X=1", chars "Y=2"] := by
  have h := @tzidParamNormalization (fun _ _ => 3600) ⟨chars "Europe/Zurich", true⟩
    (chars "DTSTART;X=1;TZID=UTC;Y=2:20240101T120000Z") (chars "DTSTART")
    (some (chars ";X=1;TZID=UTC;Y=2")) (chars "20240101T120000Z")
    (by decide) (by decide) (by decide) (by decide)
  exact h.1.trans (by decide)

/-- Supporting lemma about the rewriter: a recognized date-time line whose
value is a comma-separated list of two or more entries, each ending with the
designator Z (or with a TZID parameter present on the line), is returned
unchanged by the classifier: the whole comma-joined value fails the
single-value parse and takes the fail-safe path, so it is never converted. -/
theorem multiValueListUntouched (env : L → Int → Int) (opts : TransformOptions)
    {line p : L} {ps : Option L} {v : L} (items : List L)
    (hm : matchDtLine line = some (p, ps, v))
    (hv : v = joinSep [','] items) (hlen : 2 ≤ items.length)
    (hcases : (∀ it ∈ items, it.getLast? = some 'Z') ∨ extractExistingTzid ps ≠ none) :
    transformDateTimeLine env opts line = line := by
  have hcomma : ',' ∈ v := by
    cases items with
    | nil => simp at hlen
    | cons a rest =>
      cases rest with
      | nil => simp at hlen
      | cons b rest2 =>
        rw [hv]
        simp [joinSep]
  have hfail : luxonParse (hasSecondsB (removeFirstZ v)) (removeFirstZ v) = none :=
    luxonParse_none_of_comma (mem_removeFirstZ hcomma (by decide))
  apply transform_failsafe env opts hm hfail
  rcases hcases with hall | hext
  · left
    rw [hv]
    apply joinSep_last_endsZ hall
    intro hnil
    rw [hnil] at hlen
    simp at hlen
  · right
    exact hext

/-- Instance of the previous lemma: a two-entry EXDATE list of UTC
date-times passes through the classifier unchanged even with override
enabled. -/
theorem multiValueListUntouched_witness :
    transformDateTimeLine (fun _ _ => 0) ⟨chars "Europe/Zurich", true⟩
      (chars "EXDATE:20240101T120000Z,20240201T120000Z") =
      chars "EXDATE:20240101T120000Z,20240201T120000Z" :=
  @multiValueListUntouched (fun _ _ => 0) ⟨chars "Europe/Zurich", true⟩
    (chars "EXDATE:20240101T120000Z,20240201T120000Z") (chars "EXDATE") none
    (chars "20240101T120000Z,20240201T120000Z")
    [chars "20240101T120000Z", chars "20240201T120000Z"]
    (by decide) (by decide) (by decide) (Or.inl (by decide))

/- ------------------------------------------------------------------ -/
/- Claim theorems: concrete behavior of the event normalizer.          -/
/- ------------------------------------------------------------------ -/

/-- C2: the fail-safe holds at the rewriter (the malformed EXDATE line is
left unchanged by `transformDateTimeLine`), yet the full transform drops the
line from the output because the event normalizer keeps only the last run of
a repeated field name: with two unparseable EXDATE lines in one event, the
first does not appear in the output at all. -/
theorem duplicateFailsafeLineDropped :
    transformDateTimeLine (fun _ _ => 0) ⟨chars "X", false⟩
      (chars "EXDATE:20240199T000000Z") = chars "EXDATE:20240199T000000Z" ∧
    luxonParse true (chars "20240199T000000") = none ∧
    (chars "EXDATE:20240199T000000Z") ∈ unfoldICSLines
      (chars "BEGIN:VEVENT\r\nEXDATE:20240199T000000Z\r\nEXDATE:20240188T000000Z\r\nEND:VEVENT") ∧
    (chars "EXDATE:20240199T000000Z") ∉ unfoldICSLines
      (transformIcs (fun _ _ => 0) (chars "X") false
        (chars "BEGIN:VEVENT\r\nEXDATE:20240199T000000Z\r\nEXDATE:20240188T000000Z\r\nEND:VEVENT")) := by
  decide

/-- C4: an all-day line is untouched by the classifier, yet the full
transform does not emit it byte-identically for every input: with two all-day
EXDATE lines in one event the normalizer keeps only the last run, so the
first all-day line disappears from the output. -/
theorem allDayDuplicateDropped :
    isAllDay (chars "EXDATE;VALUE=DATE:20240101") = true ∧
    (chars "EXDATE;VALUE=DATE:20240101") ∈ unfoldICSLines
      (chars "BEGIN:VEVENT\r\nEXDATE;VALUE=DATE:20240101\r\nEXDATE;VALUE=DATE:20240102\r\nEND:VEVENT") ∧
    (chars "EXDATE;VALUE=DATE:20240101") ∉ unfoldICSLines
      (transformIcs (fun _ _ => 0) (chars "X") false
        (chars "BEGIN:VEVENT\r\nEXDATE;VALUE=DATE:20240101\r\nEXDATE;VALUE=DATE:20240102\r\nEND:VEVENT")) := by
  decide

/-- C5: the normalizer does not preserve multiple occurrences of the same
canonical field name: two ATTENDEE lines collapse to the last one, because
each run is stored in a map keyed by field name and the later run overwrites
the earlier. -/
theorem attendeeRunOverwritten :
    fixVEventStructure [chars "BEGIN:VEVENT", chars "ATTENDEE:mailto:a",
        chars "ATTENDEE:mailto:b", chars "END:VEVENT"] =
      [chars "ATTENDEE:mailto:b", chars "BEGIN:VEVENT", chars "END:VEVENT"] ∧
    (chars "ATTENDEE:mailto:a") ∉ fixVEventStructure [chars "BEGIN:VEVENT",
      chars "ATTENDEE:mailto:a", chars "ATTENDEE:mailto:b", chars "END:VEVENT"] := by
  decide

/-- C6: the normalizer buffers the BEGIN:VEVENT marker together with the
block's property lines, so the marker is sorted into the non-canonical slot
and is emitted after the canonical fields: block structure is not preserved. -/
theorem beginMarkerMisplaced :
    fixVEventStructure [chars "BEGIN:VEVENT", chars "UID:1", chars "END:VEVENT"] =
      [chars "UID:1", chars "BEGIN:VEVENT", chars "END:VEVENT"] := by
  decide

/-- C1: the rewriter does convert each absolute-UTC line exactly as the
claim describes (first conjunct), a date-time line inside the
timezone-definition block is routed past the rewriter and emitted unchanged
(second conjunct), and the converted DTSTART is emitted (third conjunct);
but `transformIcs` does not emit the converted line for every such input:
with two absolute-UTC EXDATE lines in one event, the normalizer keeps only
the last run of the repeated field name, so neither the first line's
converted form nor the line itself appears in the output, while the second
line's converted form does. -/
theorem utcConvertedLineDropped :
    transformDateTimeLine (fun _ _ => 3600) ⟨chars "Europe/Zurich", false⟩
      (chars "EXDATE:20240101T120000Z") =
      chars "EXDATE;TZID=Europe/Zurich:20240101T130000" ∧
    (chars "DTSTART:19700329T020000Z") ∈ unfoldICSLines
      (transformIcs (fun _ _ => 3600) (chars "Europe/Zurich") false
        (chars "BEGIN:VCALENDAR\r\nBEGIN:VTIMEZONE\r\nTZID:Europe/Zurich\r\nDTSTART:19700329T020000Z\r\nEND:VTIMEZONE\r\nBEGIN:VEVENT\r\nDTSTART:20240101T120000Z\r\nEXDATE:20240101T120000Z\r\nEXDATE:20240201T120000Z\r\nEND:VEVENT\r\nEND:VCALENDAR")) ∧
    (chars "DTSTART;TZID=Europe/Zurich:20240101T130000") ∈ unfoldICSLines
      (transformIcs (fun _ _ => 3600) (chars "Europe/Zurich") false
        (chars "BEGIN:VCALENDAR\r\nBEGIN:VTIMEZONE\r\nTZID:Europe/Zurich\r\nDTSTART:19700329T020000Z\r\nEND:VTIMEZONE\r\nBEGIN:VEVENT\r\nDTSTART:20240101T120000Z\r\nEXDATE:20240101T120000Z\r\nEXDATE:20240201T120000Z\r\nEND:VEVENT\r\nEND:VCALENDAR")) ∧
    (chars "EXDATE;TZID=Europe/Zurich:20240201T130000") ∈ unfoldICSLines
      (transformIcs (fun _ _ => 3600) (chars "Europe/Zurich") false
        (chars "BEGIN:VCALENDAR\r\nBEGIN:VTIMEZONE\r\nTZID:Europe/Zurich\r\nDTSTART:19700329T020000Z\r\nEND:VTIMEZONE\r\nBEGIN:VEVENT\r\nDTSTART:20240101T120000Z\r\nEXDATE:20240101T120000Z\r\nEXDATE:20240201T120000Z\r\nEND:VEVENT\r\nEND:VCALENDAR")) ∧
    (chars "EXDATE;TZID=Europe/Zurich:20240101T130000") ∉ unfoldICSLines
      (transformIcs (fun _ _ => 3600) (chars "Europe/Zurich") false
        (chars "BEGIN:VCALENDAR\r\nBEGIN:VTIMEZONE\r\nTZID:Europe/Zurich\r\nDTSTART:19700329T020000Z\r\nEND:VTIMEZONE\r\nBEGIN:VEVENT\r\nDTSTART:20240101T120000Z\r\nEXDATE:20240101T120000Z\r\nEXDATE:20240201T120000Z\r\nEND:VEVENT\r\nEND:VCALENDAR")) ∧
    (chars "EXDATE:20240101T120000Z") ∉ unfoldICSLines
      (transformIcs (fun _ _ => 3600) (chars "Europe/Zurich") false
        (chars "BEGIN:VCALENDAR\r\nBEGIN:VTIMEZONE\r\nTZID:Europe/Zurich\r\nDTSTART:19700329T020000Z\r\nEND:VTIMEZONE\r\nBEGIN:VEVENT\r\nDTSTART:20240101T120000Z\r\nEXDATE:20240101T120000Z\r\nEXDATE:20240201T120000Z\r\nEND:VEVENT\r\nEND:VCALENDAR")) := by
  decide

/-- C10: the rewriter does leave a multi-valued absolute-UTC EXDATE list
unchanged (first conjunct) and the event's single-valued DTSTART on the same
event is converted and emitted (second conjunct); but `transformIcs` does
not leave every such line in place: with two multi-valued EXDATE lines in
one event, the normalizer keeps only the last run of the repeated field
name, so the first line is absent from the output while the second appears
unchanged and unconverted. -/
theorem multiValuedExdateDropped :
    transformDateTimeLine (fun _ _ => 3600) ⟨chars "Europe/Zurich", false⟩
      (chars "EXDATE:20240101T120000Z,20240201T120000Z") =
      chars "EXDATE:20240101T120000Z,20240201T120000Z" ∧
    (chars "DTSTART;TZID=Europe/Zurich:20240101T130000") ∈ unfoldICSLines
      (transformIcs (fun _ _ => 3600) (chars "Europe/Zurich") false
        (chars "BEGIN:VEVENT\r\nDTSTART:20240101T120000Z\r\nEXDATE:20240101T120000Z,20240201T120000Z\r\nEXDATE:20240301T120000Z,20240401T120000Z\r\nEND:VEVENT")) ∧
    (chars "EXDATE:20240301T120000Z,20240401T120000Z") ∈ unfoldICSLines
      (transformIcs (fun _ _ => 3600) (chars "Europe/Zurich") false
        (chars "BEGIN:VEVENT\r\nDTSTART:20240101T120000Z\r\nEXDATE:20240101T120000Z,20240201T120000Z\r\nEXDATE:20240301T120000Z,20240401T120000Z\r\nEND:VEVENT")) ∧
    (chars "EXDATE:20240101T120000Z,20240201T120000Z") ∉ unfoldICSLines
      (transformIcs (fun _ _ => 3600) (chars "Europe/Zurich") false
        (chars "BEGIN:VEVENT\r\nDTSTART:20240101T120000Z\r\nEXDATE:20240101T120000Z,20240201T120000Z\r\nEXDATE:20240301T120000Z,20240401T120000Z\r\nEND:VEVENT")) := by
  decide

/- ------------------------------------------------------------------ -/
/- Timezone-definition integration lemmas.                             -/
/- ------------------------------------------------------------------ -/

theorem dropThroughEndVtz_split {mid : List L} {e : L} (post : List L)
    (hmid : ∀ x ∈ mid, isEndVtz x = false) (he : isEndVtz e = true) :
    dropThroughEndVtz (mid ++ e :: post) = some post := by
  induction mid with
  | nil => simp [dropThroughEndVtz, he]
  | cons x xs ih =>
    have hx := hmid x (by simp)
    simp only [List.cons_append, dropThroughEndVtz, hx]
    simp only [Bool.false_eq_true, if_false]
    exact ih (fun y hy => hmid y (by simp [hy]))

theorem replaceVtz_split (blk : List L) {pre : List L} {b : L} {mid : List L} {e : L}
    (post : List L) (hpre : ∀ x ∈ pre, isBeginVtz x = false) (hb : isBeginVtz b = true)
    (hmid : ∀ x ∈ mid, isEndVtz x = false) (he : isEndVtz e = true) :
    replaceVtz blk (pre ++ b :: (mid ++ e :: post)) = some (pre ++ (blk ++ post)) := by
  induction pre with
  | nil =>
    simp [replaceVtz, hb, dropThroughEndVtz_split post hmid he]
  | cons x xs ih =>
    have hx := hpre x (by simp)
    simp [replaceVtz, hx, ih (fun y hy => hpre y (by simp [hy]))]

theorem replaceVtz_some_decomp {blk : List L} {ls r : List L}
    (h : replaceVtz blk ls = some r) : ∃ a b, r = a ++ (blk ++ b) := by
  induction ls generalizing r with
  | nil => cases h
  | cons x xs ih =>
    simp only [replaceVtz] at h
    by_cases hx : isBeginVtz x = true
    · rw [if_pos hx] at h
      cases hd : dropThroughEndVtz xs with
      | none => rw [hd] at h; cases h
      | some rest =>
        rw [hd] at h
        simp only [Option.map] at h
        injection h with h
        exact ⟨[], rest, h.symm⟩
    · rw [if_neg hx] at h
      cases hr : replaceVtz blk xs with
      | none => rw [hr] at h; cases h
      | some r2 =>
        rw [hr] at h
        simp only [Option.map] at h
        injection h with h
        obtain ⟨a, b, hab⟩ := ih hr
        exact ⟨x :: a, b, by rw [← h, hab]; simp⟩

theorem insertBeforeVevent_split (blk : List L) {pre : List L} {w : L} (post : List L)
    (hpre : ∀ x ∈ pre, isBeginVevent x = false) (hw : isBeginVevent w = true) :
    insertBeforeVevent blk (pre ++ w :: post) = pre ++ (blk ++ w :: post) := by
  induction pre with
  | nil => simp [insertBeforeVevent, hw]
  | cons x xs ih =>
    have hx := hpre x (by simp)
    simp [insertBeforeVevent, hx, ih (fun y hy => hpre y (by simp [hy]))]

theorem insertBeforeVevent_none (blk : List L) {ls : List L}
    (h : ∀ x ∈ ls, isBeginVevent x = false) :
    insertBeforeVevent blk ls = ls ++ blk := by
  induction ls with
  | nil => rfl
  | cons x xs ih =>
    have hx := h x (by simp)
    simp only [insertBeforeVevent, hx, Bool.false_eq_true, if_false,
      ih (fun y hy => h y (by simp [hy])), List.cons_append]

theorem insertBeforeVevent_decomp (blk ls : List L) :
    ∃ a b, insertBeforeVevent blk ls = a ++ (blk ++ b) := by
  induction ls with
  | nil => exact ⟨[], [], by simp [insertBeforeVevent]⟩
  | cons x xs ih =>
    by_cases hx : isBeginVevent x = true
    · exact ⟨[], x :: xs, by simp [insertBeforeVevent, hx]⟩
    · obtain ⟨a, b, hab⟩ := ih
      refine ⟨x :: a, b, ?_⟩
      simp only [insertBeforeVevent, hx, Bool.false_eq_true, if_false, hab, List.cons_append]

theorem tzidDecl_self (tz : L) : tzidDecl tz (chars "TZID:" ++ tz) = true := by
  unfold tzidDecl
  rw [Bool.and_eq_true]
  constructor
  · unfold upper
    rw [List.map_append]
    have hself : (chars "TZID:").map Char.toUpper = chars "TZID:" := by decide
    rw [hself]
    exact List.isPrefixOf_iff_prefix.mpr (List.prefix_append _ _)
  · apply List.any_eq_true.mpr
    exact ⟨tz, (List.mem_tails _ _).mpr (List.suffix_append _ _),
      List.isPrefixOf_iff_prefix.mpr (List.prefix_refl _)⟩

theorem mem_vtimezoneBlock_tzid (tz : L) : (chars "TZID:" ++ tz) ∈ vtimezoneBlock tz := by
  simp [vtimezoneBlock]

theorem applyVtz_declared {tz : L} {ls : List L} (h2 : ls.any (tzidDecl tz) = true) :
    applyVtz tz ls = ls := by
  unfold applyVtz
  by_cases h1 : isLikelyIana tz = false
  · rw [if_pos h1]
  · rw [if_neg h1, if_pos h2]

/-- C7: timezone-definition integration. When the zone passes the shape check
and no line declares it: the first complete definition block (open marker,
body, close marker) is replaced by the synthesized block; with no definition
block, the synthesized block goes immediately before the first event open
marker, or at the end when there is no event marker either. When a line
already declares the target zone the document is unchanged, when the shape
check fails the document is unchanged, and the integration step is
idempotent (a second run adds no duplicate block). -/
theorem vtimezoneIntegration (tz : L) :
    (∀ pre b mid e post,
      isLikelyIana tz = true →
      (pre ++ b :: (mid ++ e :: post)).any (tzidDecl tz) = false →
      (∀ x ∈ pre, isBeginVtz x = false) → isBeginVtz b = true →
      (∀ x ∈ mid, isEndVtz x = false) → isEndVtz e = true →
      applyVtz tz (pre ++ b :: (mid ++ e :: post)) = pre ++ (vtimezoneBlock tz ++ post)) ∧
    (∀ pre w post,
      isLikelyIana tz = true →
      (pre ++ w :: post).any (tzidDecl tz) = false →
      (pre ++ w :: post).any isBeginVtz = false →
      (∀ x ∈ pre, isBeginVevent x = false) → isBeginVevent w = true →
      applyVtz tz (pre ++ w :: post) = pre ++ (vtimezoneBlock tz ++ w :: post)) ∧
    (∀ ls, isLikelyIana tz = true →
      ls.any (tzidDecl tz) = false → ls.any isBeginVtz = false →
      (∀ x ∈ ls, isBeginVevent x = false) →
      applyVtz tz ls = ls ++ vtimezoneBlock tz) ∧
    (∀ ls, ls.any (tzidDecl tz) = true → applyVtz tz ls = ls) ∧
    (∀ ls, isLikelyIana tz = false → applyVtz tz ls = ls) ∧
    (∀ ls, applyVtz tz (applyVtz tz ls) = applyVtz tz ls) := by
  have hout : ∀ r : List L, (∃ a b, r = a ++ (vtimezoneBlock tz ++ b)) →
      r.any (tzidDecl tz) = true := by
    rintro r ⟨a, b, rfl⟩
    apply List.any_eq_true.mpr
    refine ⟨chars "TZID:" ++ tz, ?_, tzidDecl_self tz⟩
    exact List.mem_append.mpr (Or.inr (List.mem_append.mpr
      (Or.inl (mem_vtimezoneBlock_tzid tz))))
  refine ⟨?_, ?_, ?_, ?_, ?_, ?_⟩
  · intro pre b mid e post hlik hdecl hpre hb hmid he
    unfold applyVtz
    rw [if_neg (by simp [hlik]), if_neg (by simp [hdecl]),
      if_pos (by simp [List.any_append, List.any_cons, hb]),
      replaceVtz_split (vtimezoneBlock tz) post hpre hb hmid he]
  · intro pre w post hlik hdecl hnovtz hpre hw
    unfold applyVtz
    rw [if_neg (by simp [hlik]), if_neg (by simp [hdecl]), if_neg (by simp [hnovtz]),
      insertBeforeVevent_split (vtimezoneBlock tz) post hpre hw]
  · intro ls hlik hdecl hnovtz hnovev
    unfold applyVtz
    rw [if_neg (by simp [hlik]), if_neg (by simp [hdecl]), if_neg (by simp [hnovtz]),
      insertBeforeVevent_none (vtimezoneBlock tz) hnovev]
  · intro ls hdecl
    exact applyVtz_declared hdecl
  · intro ls hlik
    unfold applyVtz
    rw [if_pos hlik]
  · intro ls
    by_cases hlik : isLikelyIana tz = false
    · have h5 : ∀ m : List L, applyVtz tz m = m := fun m => by rw [applyVtz, if_pos hlik]
      rw [h5, h5]
    · by_cases hdecl : ls.any (tzidDecl tz) = true
      · rw [applyVtz_declared hdecl, applyVtz_declared hdecl]
      · have hdecl2 : ls.any (tzidDecl tz) = false := by simpa using hdecl
        by_cases hvtz : ls.any isBeginVtz = true
        · have hshape : applyVtz tz ls =
              match replaceVtz (vtimezoneBlock tz) ls with
              | some r => r
              | none => ls := by
            unfold applyVtz
            rw [if_neg hlik, if_neg (by simp [hdecl2]), if_pos hvtz]
          cases hrv : replaceVtz (vtimezoneBlock tz) ls with
          | some r =>
            have hr : applyVtz tz ls = r := by rw [hshape, hrv]
            rw [hr]
            exact applyVtz_declared (hout r (replaceVtz_some_decomp hrv))
          | none =>
            have hr : applyVtz tz ls = ls := by rw [hshape, hrv]
            rw [hr]
            exact hr
        · have hvtz2 : ls.any isBeginVtz = false := by simpa using hvtz
          have hr : applyVtz tz ls = insertBeforeVevent (vtimezoneBlock tz) ls := by
            unfold applyVtz
            rw [if_neg hlik, if_neg (by simp [hdecl2]), if_neg (by simp [hvtz2])]
          rw [hr]
          exact applyVtz_declared (hout _ (insertBeforeVevent_decomp (vtimezoneBlock tz) ls))

/-- C7 witness: a document with a foreign definition block has it replaced by
the synthesized block; a document already declaring the target zone is left
unchanged; a zone failing the shape test changes nothing; the step is
idempotent on a concrete document. -/
theorem vtimezoneIntegration_witness :
    applyVtz (chars "Europe/Zurich")
      [chars "BEGIN:VCALENDAR", chars "BEGIN:VTIMEZONE", chars "TZID:Europe/Paris",
        chars "END:VTIMEZONE", chars "BEGIN:VEVENT", chars "END:VEVENT"] =
      [chars "BEGIN:VCALENDAR"] ++
        (vtimezoneBlock (chars "Europe/Zurich") ++
          [chars "BEGIN:VEVENT", chars "END:VEVENT"]) ∧
    applyVtz (chars "X") [chars "BEGIN:VTIMEZONE", chars "END:VTIMEZONE"] =
      [chars "BEGIN:VTIMEZONE", chars "END:VTIMEZONE"] ∧
    applyVtz (chars "Europe/Zurich")
      (applyVtz (chars "Europe/Zurich") [chars "BEGIN:VCALENDAR"]) =
      applyVtz (chars "Europe/Zurich") [chars "BEGIN:VCALENDAR"] := by
  refine ⟨?_, ?_, ?_⟩
  · exact (vtimezoneIntegration (chars "Europe/Zurich")).1
      [chars "BEGIN:VCALENDAR"] (chars "BEGIN:VTIMEZONE") [chars "TZID:Europe/Paris"]
      (chars "END:VTIMEZONE") [chars "BEGIN:VEVENT", chars "END:VEVENT"]
      (by decide) (by decide) (by decide) (by decide) (by decide) (by decide)
  · exact (vtimezoneIntegration (chars "X")).2.2.2.2.1
      [chars "BEGIN:VTIMEZONE", chars "END:VTIMEZONE"] (by decide)
  · exact (vtimezoneIntegration (chars "Europe/Zurich")).2.2.2.2.2
      [chars "BEGIN:VCALENDAR"]

/- ------------------------------------------------------------------ -/
/- Fold and unfold round trip.                                         -/
/- ------------------------------------------------------------------ -/

theorem replaceCRLF_cons_ne {c : Char} (hc : c ≠ '\r') (t : L) :
    replaceCRLF (c :: t) = c :: replaceCRLF t := by
  cases t with
  | nil => rfl
  | cons d t2 =>
    simp only [replaceCRLF]
    rw [if_neg]
    intro hcon
    exact hc hcon.1

theorem replaceCRLF_no_cr {l : L} (h : '\r' ∉ l) : replaceCRLF l = l := by
  induction l with
  | nil => rfl
  | cons c cs ih =>
    have hc : c ≠ '\r' := fun he => h (by simp [he])
    rw [replaceCRLF_cons_ne hc, ih (fun hm => h (by simp [hm]))]

theorem replaceCRLF_line_sep {a : L} (h : '\r' ∉ a) (rest : L) :
    replaceCRLF (a ++ '\r' :: '\n' :: rest) = a ++ '\n' :: replaceCRLF rest := by
  induction a with
  | nil =>
    simp [replaceCRLF]
  | cons c cs ih =>
    have hc : c ≠ '\r' := fun he => h (by simp [he])
    rw [List.cons_append, replaceCRLF_cons_ne hc, ih (fun hm => h (by simp [hm]))]
    rfl

theorem replaceCRLF_join {ls : List L} (h : ∀ l ∈ ls, '\r' ∉ l ∧ '\n' ∉ l) :
    replaceCRLF (joinSep (chars "\r\n") ls) = joinSep ['\n'] ls := by
  induction ls with
  | nil => rfl
  | cons a rest ih =>
    cases rest with
    | nil =>
      simp only [joinSep]
      exact replaceCRLF_no_cr (h a (by simp)).1
    | cons b rest2 =>
      have hsh : joinSep (chars "\r\n") (a :: b :: rest2) =
          a ++ '\r' :: '\n' :: joinSep (chars "\r\n") (b :: rest2) := by
        simp [joinSep, chars]
      have hsh2 : joinSep ['\n'] (a :: b :: rest2) =
          a ++ '\n' :: joinSep ['\n'] (b :: rest2) := by
        simp [joinSep]
      rw [hsh, hsh2, replaceCRLF_line_sep (h a (by simp)).1,
        ih (fun l hl => h l (List.mem_cons_of_mem _ hl))]

theorem unfoldAux_no_cont {ls : List L} (h : ∀ l ∈ ls, isContLine l = false) :
    ∀ racc, unfoldAux racc ls = racc.reverse ++ ls := by
  induction ls with
  | nil => intro racc; simp [unfoldAux]
  | cons l rest ih =>
    intro racc
    have hl := h l (by simp)
    simp only [unfoldAux, hl, Bool.false_eq_true, if_false]
    rw [ih (fun x hx => h x (by simp [hx])) (l :: racc)]
    simp

theorem foldLine_short {l : L} (h : l.length ≤ 75) : foldLine l = [l] := by
  unfold foldLine
  rw [if_pos h]

theorem foldICSLines_short {ls : List L} (h : ∀ l ∈ ls, l.length ≤ 75) :
    foldICSLines ls = joinSep (chars "\r\n") ls := by
  unfold foldICSLines
  congr 1
  induction ls with
  | nil => rfl
  | cons l rest ih =>
    simp only [List.map_cons, List.flatten_cons, foldLine_short (h l (by simp)),
      ih (fun x hx => h x (by simp [hx]))]
    rfl

/-- C8 counterexample: an LF-separated document whose logical lines contain
no CRLF is not reproduced by folding its unfolding — the round trip rewrites
the separator to CRLF. -/
theorem foldUnfold_counterexample :
    ((unfoldICSLines (chars "A\nB")).all
      (fun l => !(l.tails.any (fun t => (chars "\r\n").isPrefixOf t)))) = true ∧
    foldICSLines (unfoldICSLines (chars "A\nB")) ≠ chars "A\nB" := by
  decide

/-- C8 (amended): folding the unfolding reproduces the document exactly for
every document that is a CRLF-join of logical lines each free of CR and LF,
of length at most 75, and not beginning with a space or tab. -/
theorem foldUnfold_roundTrip (ls : List L)
    (h : ∀ l ∈ ls, '\r' ∉ l ∧ '\n' ∉ l ∧ l.length ≤ 75 ∧ isContLine l = false) :
    foldICSLines (unfoldICSLines (joinSep (chars "\r\n") ls)) =
      joinSep (chars "\r\n") ls := by
  cases ls with
  | nil => decide
  | cons a rest =>
    have hsep : replaceCRLF (joinSep (chars "\r\n") (a :: rest)) =
        joinSep ['\n'] (a :: rest) :=
      replaceCRLF_join (fun l hl => ⟨(h l hl).1, (h l hl).2.1⟩)
    have hsplit : splitOnChar '\n' (joinSep ['\n'] (a :: rest)) = a :: rest :=
      splitOnChar_joinSep (by simp) (fun q hq => (h q hq).2.1)
    unfold unfoldICSLines
    rw [hsep, hsplit, unfoldAux_no_cont (fun l hl => (h l hl).2.2.2) [],
      List.reverse_nil, List.nil_append,
      foldICSLines_short (fun l hl => (h l hl).2.2.1)]

/-- C8 witness: the round trip reproduces a concrete two-line CRLF document. -/
theorem foldUnfold_roundTrip_witness :
    foldICSLines (unfoldICSLines (joinSep (chars "\r\n") [chars "AB", chars "CD"])) =
      joinSep (chars "\r\n") [chars "AB", chars "CD"] :=
  foldUnfold_roundTrip [chars "AB", chars "CD"] (by decide)

end IcsProxy
